import Mathlib

/-!
Verification of the `untestify` migration tool (a Go program that rewrites
stretchr/testify assertion calls into grailbio/testutil calls).

The development shallowly embeds the program's core:
 - the string helpers used by the source (`strings.Contains`, `strings.Replace`,
   `fmt.Sprintf "template%08d"`),
 - the substitution catalog and `addTemplates` (template expansion),
 - `rewriteImports` (import reconciliation over the two parallel AST
   representations: `file.Imports` and the `IMPORT` `GenDecl` groups, which
   share the underlying `ImportSpec` nodes - modelled as a heap of specs
   addressed by indices),
 - the orchestration in `main`/`doMain` (package selection, the per-file
   persist decision, fatal-error propagation, and flag handling).
-/

namespace Untestify

/-! ## String primitives (models of Go's `strings` package helpers) -/

/-- `isPrefixOfCh needle hay` is true when `needle` is a prefix of `hay`. -/
def isPrefixOfCh : List Char → List Char → Bool
  | [], _ => true
  | _ :: _, [] => false
  | a :: as, b :: bs => a == b && isPrefixOfCh as bs

/-- Core of `strings.Contains`: `needle` occurs as a contiguous substring. -/
def strContainsCh (needle : List Char) : List Char → Bool
  | [] => isPrefixOfCh needle []
  | c :: t => isPrefixOfCh needle (c :: t) || strContainsCh needle t

/-- Model of Go `strings.Contains(s, sub)` (and `strings.Index(s, sub) >= 0`,
which the source uses interchangeably with it). -/
def sContains (s sub : String) : Bool := strContainsCh sub.data s.data

/-- Model of Go `strings.Replace(s, old, new, -1)`: replace every
non-overlapping occurrence of `old`, scanning left to right.  (The program
only ever calls it with a non-empty `old`; for `old = []` this model makes no
replacement.) -/
def replaceAllCh (old new : List Char) : List Char → List Char
  | [] => []
  | c :: t =>
    if old ≠ [] ∧ isPrefixOfCh old (c :: t) = true then
      new ++ replaceAllCh old new (t.drop (old.length - 1))
    else
      c :: replaceAllCh old new t
termination_by s => s.length
decreasing_by
  · simp only [List.length_drop, List.length_cons]
    omega
  · simp only [List.length_cons]
    omega

/-- String-level wrapper for `replaceAllCh`. -/
def replaceAll (s old new : String) : String :=
  ⟨replaceAllCh old.data new.data s.data⟩

/-! ## Decimal formatting (model of `fmt.Sprintf("template%08d", seq)`) -/

/-- The decimal digit character for `d < 10`. -/
def digitChar (d : Nat) : Char := Char.ofNat (48 + d)

/-- Little-endian decimal digits of `n` (empty for `0`). -/
def decDigitsAux : Nat → List Char
  | 0 => []
  | n + 1 => digitChar ((n + 1) % 10) :: decDigitsAux ((n + 1) / 10)
decreasing_by exact Nat.div_lt_self (Nat.succ_pos n) (by omega)

/-- Decimal representation of a natural number (model of `%d`). -/
def natRepr (n : Nat) : String :=
  ⟨if n = 0 then ['0'] else (decDigitsAux n).reverse⟩

/-- Zero-pad a string on the left to width 8 (model of the `08` in `%08d`). -/
def pad8 (s : String) : String :=
  ⟨List.replicate (8 - s.data.length) '0' ++ s.data⟩

/-- The synthetic package name `fmt.Sprintf("template%08d", seq)`. -/
def templateName (seq : Nat) : String := "template" ++ pad8 (natRepr seq)

/-- Numeric value of a digit character. -/
def digitVal (c : Char) : Nat := c.toNat - 48

/-- Big-endian decimal parse; the left inverse used to show that the
synthetic names are pairwise distinct. -/
def parseBE (l : List Char) : Nat := l.foldl (fun acc c => acc * 10 + digitVal c) 0

theorem digitVal_digitChar {d : Nat} (h : d < 10) : digitVal (digitChar d) = d := by
  interval_cases d <;> decide

theorem foldr_decDigitsAux (n : Nat) :
    (decDigitsAux n).foldr (fun c acc => acc * 10 + digitVal c) 0 = n := by
  induction n using Nat.strong_induction_on with
  | _ n ih =>
    match n with
    | 0 => simp [decDigitsAux]
    | m + 1 =>
      rw [decDigitsAux]
      simp only [List.foldr_cons]
      rw [ih ((m + 1) / 10) (Nat.div_lt_self (Nat.succ_pos m) (by omega)),
        digitVal_digitChar (Nat.mod_lt _ (by omega))]
      omega

theorem parseBE_natRepr (n : Nat) : parseBE (natRepr n).data = n := by
  by_cases h : n = 0
  · subst h; decide
  · unfold parseBE natRepr
    simp only [h, if_false]
    rw [List.foldl_reverse]
    exact foldr_decDigitsAux n

theorem parseBE_replicate_zero (k : Nat) (l : List Char) :
    parseBE (List.replicate k '0' ++ l) = parseBE l := by
  unfold parseBE
  rw [List.foldl_append]
  congr 1
  induction k with
  | zero => rfl
  | succ m ih => simpa [List.replicate_succ, digitVal] using ih

theorem parseBE_pad8_natRepr (n : Nat) : parseBE (pad8 (natRepr n)).data = n := by
  show parseBE (List.replicate _ '0' ++ (natRepr n).data) = n
  rw [parseBE_replicate_zero]
  exact parseBE_natRepr n

theorem templateName_injective : Function.Injective templateName := by
  intro a b h
  have hdata : ("template".data ++ (pad8 (natRepr a)).data)
      = ("template".data ++ (pad8 (natRepr b)).data) := by
    have := congrArg String.data h
    simpa [templateName, String.data_append] using this
  have h2 : (pad8 (natRepr a)).data = (pad8 (natRepr b)).data :=
    List.append_cancel_left hdata
  have := congrArg parseBE h2
  rwa [parseBE_pad8_natRepr, parseBE_pad8_natRepr] at this

/-! ## The rule catalog and the template expander (`addTemplates`) -/

/-- One substitution rule of the catalog (Go struct `substitution`). -/
structure Substitution where
  signature : String
  beforeBody : String
  afterBody : String
deriving DecidableEq

/-- The rule catalog (Go `var substitutions`). -/
def substitutions : List Substitution := [
  ⟨"t TT, err error DECLS", "XX.NoError(t, err ARGS)", "YY.NoError(t, err ARGS)"⟩,
  ⟨"t TT, err error, f string DECLS", "XX.NoErrorf(t, err, f ARGS)", "YY.NoError(t, err, f ARGS)"⟩,
  ⟨"t TT, err error DECLS", "XX.Error(t, err ARGS)", "YY.NotNil(t, err ARGS)"⟩,
  ⟨"t TT, err error, a string DECLS", "XX.EqualError(t, err, a ARGS)", "YY.EQ(t, err, a ARGS)"⟩,
  ⟨"t TT, err error, a, f string DECLS", "XX.EqualErrorf(t, err, a, f ARGS)", "YY.EQ(t, err, a, f ARGS)"⟩,
  ⟨"t TT, a interface\x7b\x7d, f string DECLS", "XX.NotNilf(t, a, f ARGS)", "YY.NotNil(t, a, f ARGS)"⟩,
  ⟨"t TT, a interface\x7b\x7d DECLS", "XX.Nil(t, a ARGS)", "YY.Nil(t, a ARGS)"⟩,
  ⟨"t TT, a, b interface\x7b\x7d DECLS", "XX.Equal(t, a, b ARGS)", "YY.EQ(t, b, a ARGS)"⟩,
  ⟨"t TT, a, b interface\x7b\x7d, f string DECLS", "XX.Equalf(t, a, b, f ARGS)", "YY.EQ(t, b, a, f ARGS)"⟩,
  ⟨"t TT, a, b interface\x7b\x7d DECLS", "XX.NotEqual(t, a, b ARGS)", "YY.EQ(t, b, a ARGS)"⟩,
  ⟨"t TT, a, b interface\x7b\x7d, f string DECLS", "XX.NotEqualf(t, a, b, f ARGS)", "YY.NEQ(t, b, a, f ARGS)"⟩,
  ⟨"t TT, a, b interface\x7b\x7d DECLS", "XX.Regexp(t, a, b ARGS)", "YY.Regexp(t, b, a ARGS)"⟩,
  ⟨"t TT, a bool DECLS", "XX.True(t, a ARGS)", "YY.True(t, a ARGS)"⟩,
  ⟨"t TT, a bool  DECLS", "XX.False(t, a ARGS)", "YY.False(t, a ARGS)"⟩,
  ⟨"t TT, a bool, f string  DECLS", "XX.Truef(t, a, f ARGS)", "YY.True(t, a, f ARGS)"⟩,
  ⟨"t TT, a bool, f string DECLS", "XX.Falsef(t, a, f ARGS)", "YY.False(t, a, f ARGS)"⟩,
  ⟨"t TT, a, b interface\x7b\x7d DECLS", "XX.Contains(t, a, b ARGS)", "YY.That(t, a, h.Contains(b) ARGS)"⟩,
  ⟨"t TT, a, b interface\x7b\x7d, f string DECLS", "XX.Containsf(t, a, b, f ARGS)", "YY.That(t, a, h.Contains(b), f ARGS)"⟩,
  ⟨"t TT, a interface\x7b\x7d DECLS", "XX.Zero(t, a ARGS)", "YY.That(t, a, h.Zero() ARGS)"⟩,
  ⟨"t TT, a interface\x7b\x7d, f string DECLS", "XX.Zerof(t, a, f ARGS)", "YY.EQ(t, a, h.Zero(), f ARGS)"⟩,
  ⟨"t TT, a interface\x7b\x7d DECLS", "XX.NotZero(t, a ARGS)", "YY.That(t, a, h.Not(h.Zero()) ARGS)"⟩,
  ⟨"t TT, a interface\x7b\x7d, f string DECLS", "XX.NotZerof(t, a, f ARGS)", "YY.EQ(t, a, h.Not(h.Zero()), f ARGS)"⟩]

/-- The two rewrite families (Go `type rewriteType`). -/
inductive RewriteType where
  | rewriteRequire
  | rewriteAssert
deriving DecidableEq

/-- The six arity variants: argument-declaration fragment and
argument-reference fragment (Go's inner `argList` loop literal). -/
def argLists : List (String × String) := [
  ("", ""),
  (", m0 interface\x7b\x7d", ", m0"),
  (", m0, m1 interface\x7b\x7d", ", m0, m1"),
  (", m0, m1, m2 interface\x7b\x7d", ", m0, m1, m2"),
  (", m0, m1, m2, m3 interface\x7b\x7d", ", m0, m1, m2, m3"),
  (", m0, m1, m2, m3, m4 interface\x7b\x7d", ", m0, m1, m2, m3, m4")]

/-- Import block for the `rewriteRequire` family (Go raw string literal). -/
def requireImportsStr : String :=
  "\n \"vendor/github.com/stretchr/testify/require\"\ngassert \"github.com/grailbio/testutil/assert\"\n"

/-- Import block for the `rewriteAssert` family (Go raw string literal). -/
def assertImportsStr : String :=
  "\n \"vendor/github.com/stretchr/testify/assert\"\ngexpect \"github.com/grailbio/testutil/expect\"\n"

/-- Extra import appended when the after-shape references the `h` helpers. -/
def hImportStr : String := "\n\"github.com/grailbio/testutil/h\"\n"

/-- One synthetic template unit: its package name, the scratch file path it is
written to, and the generated source text. -/
structure TemplateUnit where
  pkgName : String
  path : String
  body : String
deriving DecidableEq

/-- Build the template unit for one (rule, family, arity) instance, exactly as
the body of the inner loop of `addTemplates` does. -/
def mkTemplateUnit (imports sig before after : String) (seq : Nat) : TemplateUnit :=
  let pkgName := templateName seq
  { pkgName := pkgName
    path := "/tmp/.templatestmp/" ++ pkgName ++ ".go"
    body := "\npackage " ++ pkgName ++ "\nimport (\n\t\"testing\"\n  " ++ imports ++
      "\n)\n\nfunc before(" ++ sig ++ ") \x7b " ++ before ++ " \x7d\nfunc after(" ++
      sig ++ ") \x7b " ++ after ++ " \x7d\n" }

/-- Result of a modelled `ioutil.WriteFile`: `none` is success, `some msg` a
failure that the program turns into `log.Panic`. -/
abbrev WriteResult := Option String

/-- The inner loop of `addTemplates` over the six arity variants for one rule.
On a write failure the program panics: modelled as `.error (msg, created)`
where `created` are the units registered before the panic. -/
def unitsForSub (wf : String → String → WriteResult) (imports : String)
    (sub : Substitution) (before after : String) :
    List (String × String) → Nat → Except (String × List TemplateUnit) (List TemplateUnit × Nat)
  | [], seq => .ok ([], seq)
  | (decl, arg) :: rest, seq =>
    let sig := replaceAll (replaceAll sub.signature "DECLS" decl) "TT" "testing.TB"
    let before1 := replaceAll before "ARGS" arg
    let after1 := replaceAll after "ARGS" arg
    let u := mkTemplateUnit imports sig before1 after1 seq
    match wf u.path u.body with
    | some e => .error (e, [])
    | none =>
      match unitsForSub wf imports sub before after rest (seq + 1) with
      | .error (e, us) => .error (e, u :: us)
      | .ok (us, seq2) => .ok (u :: us, seq2)

/-- The `switch rType` arm computing `before` (source family name spliced in). -/
def familyBefore (rType : RewriteType) (sub : Substitution) : String :=
  match rType with
  | .rewriteAssert => replaceAll sub.beforeBody "XX" "assert"
  | .rewriteRequire => replaceAll sub.beforeBody "XX" "require"

/-- The `switch rType` arm computing `after` (destination family name spliced in). -/
def familyAfter (rType : RewriteType) (sub : Substitution) : String :=
  match rType with
  | .rewriteAssert => replaceAll sub.afterBody "YY" "gexpect"
  | .rewriteRequire => replaceAll sub.afterBody "YY" "gassert"

/-- The `switch rType` arm selecting the family's import block. -/
def familyImports0 (rType : RewriteType) : String :=
  match rType with
  | .rewriteAssert => assertImportsStr
  | .rewriteRequire => requireImportsStr

/-- The per-rule import block, with the `h` helper import appended when the
after-shape references `h.` (the `strings.Contains(after, "h.")` check). -/
def familyImports (rType : RewriteType) (sub : Substitution) : String :=
  if sContains (familyAfter rType sub) "h." then familyImports0 rType ++ hImportStr
  else familyImports0 rType

/-- Model of `addTemplates(conf, rType, subs)`.  `seq` threads the global
`templateSeq` counter; the returned `Nat × Nat` is the new counter value and
the count `n` the Go function returns.  Registered units are returned
explicitly (they model the `conf.CreateFromFilenames` calls). -/
def addTemplates (wf : String → String → WriteResult) (rType : RewriteType) :
    List Substitution → Nat → Except (String × List TemplateUnit) (List TemplateUnit × Nat × Nat)
  | [], seq => .ok ([], seq, 0)
  | sub :: rest, seq =>
    match unitsForSub wf (familyImports rType sub) sub
        (familyBefore rType sub) (familyAfter rType sub) argLists seq with
    | .error (e, us) => .error (e, us)
    | .ok (us, seq1) =>
      match addTemplates wf rType rest seq1 with
      | .error (e, us2) => .error (e, us ++ us2)
      | .ok (us2, seq2, n2) => .ok (us ++ us2, seq2, us.length + n2)

/-- A writer that always succeeds (no I/O failure). -/
def wfOk : String → String → WriteResult := fun _ _ => none

theorem unitsForSub_ok (imports : String) (sub : Substitution) (before after : String)
    (args : List (String × String)) (seq : Nat) :
    ∃ us, unitsForSub wfOk imports sub before after args seq = .ok (us, seq + args.length) ∧
      us.length = args.length ∧
      us.map TemplateUnit.pkgName = (List.range' seq args.length).map templateName := by
  induction args generalizing seq with
  | nil => exact ⟨[], rfl, rfl, rfl⟩
  | cons hd tl ih =>
    obtain ⟨us, hrun, hlen, hnames⟩ := ih (seq + 1)
    obtain ⟨d, a⟩ := hd
    refine ⟨mkTemplateUnit imports
        (replaceAll (replaceAll sub.signature "DECLS" d) "TT" "testing.TB")
        (replaceAll before "ARGS" a) (replaceAll after "ARGS" a) seq :: us, ?_, ?_, ?_⟩
    · rw [unitsForSub, hrun]
      have : seq + 1 + tl.length = seq + (tl.length + 1) := by omega
      simp [wfOk, this]
    · simp [hlen]
    · rw [List.length_cons, List.range'_succ seq tl.length 1]
      simp only [List.map_cons, hnames, List.cons.injEq]
      simp [mkTemplateUnit]

theorem addTemplates_ok (rType : RewriteType) (subs : List Substitution) (seq : Nat) :
    ∃ us, addTemplates wfOk rType subs seq = .ok (us, seq + subs.length * 6, us.length) ∧
      us.length = subs.length * 6 ∧
      us.map TemplateUnit.pkgName = (List.range' seq (subs.length * 6)).map templateName := by
  induction subs generalizing seq with
  | nil => exact ⟨[], rfl, rfl, rfl⟩
  | cons sub rest ih =>
    obtain ⟨us2, hrun2, hlen2, hnames2⟩ := ih (seq + 6)
    obtain ⟨us1, hrun1, hlen1, hnames1⟩ :=
      unitsForSub_ok (familyImports rType sub) sub
        (familyBefore rType sub) (familyAfter rType sub) argLists seq
    refine ⟨us1 ++ us2, ?_, ?_, ?_⟩
    · rw [addTemplates, hrun1]
      have h6 : argLists.length = 6 := rfl
      rw [h6]
      dsimp only
      rw [hrun2]
      dsimp only
      have harith : seq + 6 + rest.length * 6 = seq + (sub :: rest).length * 6 := by
        rw [List.length_cons]; omega
      rw [harith, List.length_append]
    · rw [List.length_append, hlen1, hlen2]
      show 6 + rest.length * 6 = (rest.length + 1) * 6
      omega
    · rw [List.map_append, hnames1, hnames2]
      have hsplit : List.range' seq ((rest.length + 1) * 6) =
          List.range' seq 6 ++ List.range' (seq + 6) (rest.length * 6) := by
        have h1 := List.range'_append seq 6 (rest.length * 6) 1
        rw [show seq + 1 * 6 = seq + 6 by omega] at h1
        rw [show (rest.length + 1) * 6 = rest.length * 6 + 6 by omega]
        exact h1.symm
      rw [List.length_cons, hsplit, List.map_append]
      rfl

/-- Claim C1: for every run over a catalog of `N` substitution rules, the
template expander (`addTemplates`, called once per rewrite family with the
global `templateSeq` counter threaded through) emits exactly one unit per
(rule, arity-variant, family) triple: each call returns `N * 6` units and the
count it reports, the two calls together register `N * 6 * 2` units, and the
synthetic package names produced from the counter are pairwise distinct. -/
theorem c1_expander_count_and_distinct_names (subs : List Substitution) :
    ∃ us1 s1 us2 s2,
      addTemplates wfOk .rewriteRequire subs 0 = .ok (us1, s1, us1.length) ∧
      addTemplates wfOk .rewriteAssert subs s1 = .ok (us2, s2, us2.length) ∧
      us1.length = subs.length * 6 ∧ us2.length = subs.length * 6 ∧
      us1.length + us2.length = subs.length * 6 * 2 ∧
      ((us1 ++ us2).map TemplateUnit.pkgName).Nodup := by
  obtain ⟨us1, hrun1, hlen1, hnames1⟩ := addTemplates_ok .rewriteRequire subs 0
  obtain ⟨us2, hrun2, hlen2, hnames2⟩ := addTemplates_ok .rewriteAssert subs (0 + subs.length * 6)
  refine ⟨us1, 0 + subs.length * 6, us2, 0 + subs.length * 6 + subs.length * 6,
    hrun1, hrun2, hlen1, hlen2, by omega, ?_⟩
  rw [List.map_append, hnames1, hnames2]
  have hsplit : List.range' 0 (subs.length * 6) ++ List.range' (0 + subs.length * 6) (subs.length * 6) =
      List.range' 0 (subs.length * 6 + subs.length * 6) := by
    have h1 := List.range'_append 0 (subs.length * 6) (subs.length * 6) 1
    rw [show 0 + 1 * (subs.length * 6) = 0 + subs.length * 6 by omega] at h1
    rw [h1, Nat.add_comm (subs.length * 6) (subs.length * 6)]
  rw [← List.map_append, hsplit]
  exact (List.nodup_range' 0 (subs.length * 6 + subs.length * 6) 1 Nat.one_pos).map
    templateName_injective

/-! ## The import reconciler (`rewriteImports`)

In the Go AST, `file.Imports` and the `ImportSpec`s inside `IMPORT` `GenDecl`s
hold pointers to the *same* `ast.ImportSpec` nodes, so mutating a spec through
the declaration list is visible through the import list.  The embedding makes
this sharing explicit: an `AstFile` owns a heap (`specs`) of `ImportSpec`
values, and both representations store indices into that heap. -/

/-- One `ast.ImportSpec`: its optional alias ident (`Name`) and its quoted
path literal (`Path.Value`). -/
structure ImportSpec where
  name : Option String
  pathValue : String
deriving DecidableEq

/-- A top-level declaration: either an `IMPORT` `GenDecl` (with the indices of
its `ImportSpec`s) or any other declaration (opaque tag). -/
inductive FileDecl where
  | importDecl (specIds : List Nat)
  | otherDecl (tag : Nat)
deriving DecidableEq

/-- An `ast.File`, restricted to what `rewriteImports` reads and writes. -/
structure AstFile where
  specs : List ImportSpec
  imports : List Nat
  decls : List FileDecl
deriving DecidableEq

/-- Reading a dangling index yields this harmless placeholder (it cannot occur
for a parser-produced file, where every stored index is in range). -/
def defaultSpec : ImportSpec := { name := none, pathValue := "" }

/-- The quoted import path stored at heap index `i`. -/
def pathAt (heap : List ImportSpec) (i : Nat) : String :=
  (heap.getD i defaultSpec).pathValue

/-- The removal test of `rewriteImports`: the two `continue` conditions. -/
def isTestifyPath (p : String) : Bool :=
  sContains p "/testify/require" || sContains p "/testify/assert"

/-- The two alias-overwriting `if`s of the declaration-list pass, applied in
source order (`expect` first, then `assert`). -/
def applyAlias (sp : ImportSpec) : ImportSpec :=
  let sp1 := if sContains sp.pathValue "github.com/grailbio/testutil/expect"
    then { sp with name := some "gexpect" } else sp
  if sContains sp1.pathValue "github.com/grailbio/testutil/assert"
    then { sp1 with name := some "gassert" } else sp1

/-- The inner loop over `d.Specs` of one `IMPORT` `GenDecl`: drop testify
specs, overwrite destination aliases in the shared heap, keep the rest in
order.  Returns the updated heap and the surviving indices. -/
def filterSpecs (heap : List ImportSpec) : List Nat → List ImportSpec × List Nat
  | [] => (heap, [])
  | i :: rest =>
    if isTestifyPath (pathAt heap i) then filterSpecs heap rest
    else
      ((filterSpecs (heap.set i (applyAlias (heap.getD i defaultSpec))) rest).1,
        i :: (filterSpecs (heap.set i (applyAlias (heap.getD i defaultSpec))) rest).2)

/-- The loop over `file.Decls`: apply `filterSpecs` to every `IMPORT`
`GenDecl`, counting 1 per declaration group that shrank. -/
def rewriteDecls (heap : List ImportSpec) : List FileDecl → List ImportSpec × List FileDecl × Nat
  | [] => (heap, [], 0)
  | .importDecl ids :: rest =>
    ((rewriteDecls (filterSpecs heap ids).1 rest).1,
      .importDecl (filterSpecs heap ids).2 :: (rewriteDecls (filterSpecs heap ids).1 rest).2.1,
      (if (filterSpecs heap ids).2.length = ids.length then 0 else 1) +
        (rewriteDecls (filterSpecs heap ids).1 rest).2.2)
  | .otherDecl t :: rest =>
    ((rewriteDecls heap rest).1, .otherDecl t :: (rewriteDecls heap rest).2.1,
      (rewriteDecls heap rest).2.2)

/-- Model of `rewriteImports(file)`: first the `file.Imports` compaction loop
(counting 1 if it shrank), then the declaration-list pass.  Returns the
mutated file and the change count `n`. -/
def rewriteImports (f : AstFile) : AstFile × Nat :=
  let keptImports := f.imports.filter (fun i => !(isTestifyPath (pathAt f.specs i)))
  let n1 := if keptImports.length = f.imports.length then 0 else 1
  let r := rewriteDecls f.specs f.decls
  ({ specs := r.1, imports := keptImports, decls := r.2.1 }, n1 + r.2.2)

/-- All spec indices stored in `IMPORT` `GenDecl`s, in declaration order. -/
def importIdsOfDecls (ds : List FileDecl) : List Nat :=
  ds.foldr (fun d acc => match d with
    | .importDecl ids => ids ++ acc
    | .otherDecl _ => acc) []

/-- The import-list representation: the specs `file.Imports` points at. -/
def importListView (f : AstFile) : List ImportSpec :=
  f.imports.map (fun i => f.specs.getD i defaultSpec)

/-- The declaration-list representation: the specs of the `IMPORT` groups. -/
def declListView (f : AstFile) : List ImportSpec :=
  (importIdsOfDecls f.decls).map (fun i => f.specs.getD i defaultSpec)

/-- Number of `IMPORT` `GenDecl` groups in a declaration list. -/
def numImportDecls (ds : List FileDecl) : Nat :=
  (ds.filter (fun d => match d with
    | .importDecl _ => true
    | .otherDecl _ => false)).length

/-! ### Helper lemmas about `applyAlias` and heap updates -/

theorem applyAlias_eq (sp : ImportSpec) :
    applyAlias sp =
      if sContains sp.pathValue "github.com/grailbio/testutil/assert" = true
      then { sp with name := some "gassert" }
      else if sContains sp.pathValue "github.com/grailbio/testutil/expect" = true
      then { sp with name := some "gexpect" }
      else sp := by
  unfold applyAlias
  by_cases h1 : sContains sp.pathValue "github.com/grailbio/testutil/expect" = true <;>
    by_cases h2 : sContains sp.pathValue "github.com/grailbio/testutil/assert" = true <;>
    simp [h1, h2]

theorem applyAlias_pathValue (sp : ImportSpec) :
    (applyAlias sp).pathValue = sp.pathValue := by
  rw [applyAlias_eq]
  by_cases h2 : sContains sp.pathValue "github.com/grailbio/testutil/assert" = true <;>
    by_cases h1 : sContains sp.pathValue "github.com/grailbio/testutil/expect" = true <;>
    simp [h1, h2]

theorem applyAlias_idem (sp : ImportSpec) :
    applyAlias (applyAlias sp) = applyAlias sp := by
  rw [applyAlias_eq sp]
  by_cases h2 : sContains sp.pathValue "github.com/grailbio/testutil/assert" = true <;>
    by_cases h1 : sContains sp.pathValue "github.com/grailbio/testutil/expect" = true <;>
    rw [applyAlias_eq] <;> simp [h1, h2]

theorem applyAlias_defaultSpec : applyAlias defaultSpec = defaultSpec := by decide

theorem getD_set (h : List ImportSpec) (i j : Nat) (v : ImportSpec) :
    (h.set i v).getD j defaultSpec =
      if i = j ∧ i < h.length then v else h.getD j defaultSpec := by
  rcases eq_or_ne i j with rfl | hne
  · by_cases hlt : i < h.length
    · simp [List.getD_eq_getElem?_getD, List.getElem?_set_self hlt, hlt]
    · rw [List.set_eq_of_length_le (by omega)]
      simp [hlt]
  · simp [List.getD_eq_getElem?_getD, List.getElem?_set_ne hne, hne]

theorem getD_out_of_range (h : List ImportSpec) (i : Nat) (hle : h.length ≤ i) :
    h.getD i defaultSpec = defaultSpec := by
  rw [List.getD_eq_getElem?_getD, List.getElem?_eq_none hle]
  rfl

theorem getD_set_applyAlias_self (h : List ImportSpec) (i : Nat) :
    (h.set i (applyAlias (h.getD i defaultSpec))).getD i defaultSpec
      = applyAlias (h.getD i defaultSpec) := by
  rw [getD_set]
  by_cases hlt : i < h.length
  · simp [hlt]
  · have hd : h.getD i defaultSpec = defaultSpec := getD_out_of_range h i (by omega)
    rw [if_neg (by omega : ¬(i = i ∧ i < h.length)), hd, applyAlias_defaultSpec]

theorem pathAt_set_applyAlias (h : List ImportSpec) (i j : Nat) :
    pathAt (h.set i (applyAlias (h.getD i defaultSpec))) j = pathAt h j := by
  unfold pathAt
  rw [getD_set]
  split
  · next hc =>
    obtain ⟨rfl, _⟩ := hc
    rw [applyAlias_pathValue]
  · rfl

/-! ### Behavior of `filterSpecs` -/

theorem filterSpecs_heap_length (ids : List Nat) (h : List ImportSpec) :
    (filterSpecs h ids).1.length = h.length := by
  induction ids generalizing h with
  | nil => rfl
  | cons i rest ih =>
    rw [filterSpecs]
    split
    · exact ih h
    · show (filterSpecs _ rest).1.length = _
      rw [ih, List.length_set]

theorem pathAt_filterSpecs (ids : List Nat) (h : List ImportSpec) (j : Nat) :
    pathAt (filterSpecs h ids).1 j = pathAt h j := by
  induction ids generalizing h with
  | nil => rfl
  | cons i rest ih =>
    rw [filterSpecs]
    split
    · exact ih h
    · show pathAt (filterSpecs _ rest).1 j = _
      rw [ih, pathAt_set_applyAlias]

theorem filterSpecs_kept (ids : List Nat) (h : List ImportSpec) :
    (filterSpecs h ids).2 = ids.filter (fun i => !(isTestifyPath (pathAt h i))) := by
  induction ids generalizing h with
  | nil => rfl
  | cons i rest ih =>
    rw [filterSpecs, List.filter_cons]
    split
    · next hc =>
      rw [ih h]
      simp [hc]
    · next hc =>
      show i :: (filterSpecs _ rest).2 = _
      rw [ih]
      have hpred : (fun k => !(isTestifyPath
          (pathAt (h.set i (applyAlias (h.getD i defaultSpec))) k)))
          = (fun k => !(isTestifyPath (pathAt h k))) :=
        funext fun k => by rw [pathAt_set_applyAlias]
      rw [hpred]
      simp only [Bool.not_eq_true] at hc
      simp [hc]

theorem filterSpecs_heap (ids : List Nat) (h : List ImportSpec) (j : Nat) :
    (filterSpecs h ids).1.getD j defaultSpec =
      if j ∈ ids ∧ isTestifyPath (pathAt h j) = false
      then applyAlias (h.getD j defaultSpec)
      else h.getD j defaultSpec := by
  induction ids generalizing h with
  | nil => simp [filterSpecs]
  | cons i rest ih =>
    rw [filterSpecs]
    split
    · next hc =>
      rw [ih h]
      by_cases hji : j = i
      · subst hji
        have ht : isTestifyPath (pathAt h j) = true := hc
        simp [ht]
      · simp [List.mem_cons, hji]
    · next hc =>
      show (filterSpecs (h.set i (applyAlias (h.getD i defaultSpec))) rest).1.getD j defaultSpec = _
      rw [ih]
      rw [pathAt_set_applyAlias]
      by_cases hji : j = i
      · subst hji
        rw [getD_set_applyAlias_self]
        have hcf : isTestifyPath (pathAt h j) = false := by
          simpa using hc
        by_cases hjr : j ∈ rest
        · simp [hjr, hcf, applyAlias_idem, List.mem_cons]
        · simp [hjr, hcf, List.mem_cons]
      · have hset : (h.set i (applyAlias (h.getD i defaultSpec))).getD j defaultSpec
            = h.getD j defaultSpec := by
          rw [getD_set, if_neg (by omega : ¬(i = j ∧ i < h.length))]
        rw [hset]
        simp [List.mem_cons, hji]

/-! ### Behavior of `rewriteDecls` -/

/-- The effect of one `rewriteDecls` step on a declaration, phrased against a
fixed heap (alias updates do not change paths, so the filtering predicate can
be read off the pre-pass heap). -/
def declFilter (h : List ImportSpec) : FileDecl → FileDecl
  | .importDecl ids => .importDecl (ids.filter (fun i => !(isTestifyPath (pathAt h i))))
  | .otherDecl t => .otherDecl t

/-- The contribution of one declaration to the change count. -/
def declChange (h : List ImportSpec) : FileDecl → Nat
  | .importDecl ids =>
    if (ids.filter (fun i => !(isTestifyPath (pathAt h i)))).length = ids.length then 0 else 1
  | .otherDecl _ => 0

theorem importIdsOfDecls_cons_import (ids : List Nat) (rest : List FileDecl) :
    importIdsOfDecls (.importDecl ids :: rest) = ids ++ importIdsOfDecls rest := rfl

theorem importIdsOfDecls_cons_other (t : Nat) (rest : List FileDecl) :
    importIdsOfDecls (.otherDecl t :: rest) = importIdsOfDecls rest := rfl

theorem pathAt_rewriteDecls (ds : List FileDecl) (h : List ImportSpec) (j : Nat) :
    pathAt (rewriteDecls h ds).1 j = pathAt h j := by
  induction ds generalizing h with
  | nil => rfl
  | cons d rest ih =>
    cases d with
    | importDecl ids =>
      show pathAt (rewriteDecls (filterSpecs h ids).1 rest).1 j = _
      rw [ih, pathAt_filterSpecs]
    | otherDecl t => exact ih h

theorem rewriteDecls_heap_length (ds : List FileDecl) (h : List ImportSpec) :
    (rewriteDecls h ds).1.length = h.length := by
  induction ds generalizing h with
  | nil => rfl
  | cons d rest ih =>
    cases d with
    | importDecl ids =>
      show (rewriteDecls (filterSpecs h ids).1 rest).1.length = _
      rw [ih, filterSpecs_heap_length]
    | otherDecl t => exact ih h

theorem rewriteDecls_decls (ds : List FileDecl) (h : List ImportSpec) :
    (rewriteDecls h ds).2.1 = ds.map (declFilter h) := by
  induction ds generalizing h with
  | nil => rfl
  | cons d rest ih =>
    cases d with
    | importDecl ids =>
      show FileDecl.importDecl (filterSpecs h ids).2
          :: (rewriteDecls (filterSpecs h ids).1 rest).2.1 = _
      rw [ih, filterSpecs_kept]
      have hpred : declFilter (filterSpecs h ids).1 = declFilter h := by
        funext d
        cases d with
        | importDecl ids2 =>
          show FileDecl.importDecl _ = FileDecl.importDecl _
          have : (fun k => !(isTestifyPath (pathAt (filterSpecs h ids).1 k)))
              = (fun k => !(isTestifyPath (pathAt h k))) :=
            funext fun k => by rw [pathAt_filterSpecs]
          rw [this]
        | otherDecl t => rfl
      rw [hpred]
      rfl
    | otherDecl t =>
      show FileDecl.otherDecl t :: (rewriteDecls h rest).2.1 = _
      rw [ih]
      rfl

theorem rewriteDecls_count (ds : List FileDecl) (h : List ImportSpec) :
    (rewriteDecls h ds).2.2 = (ds.map (declChange h)).sum := by
  induction ds generalizing h with
  | nil => rfl
  | cons d rest ih =>
    cases d with
    | importDecl ids =>
      show (if (filterSpecs h ids).2.length = ids.length then 0 else 1)
          + (rewriteDecls (filterSpecs h ids).1 rest).2.2 = _
      rw [ih, filterSpecs_kept]
      have hpred : declChange (filterSpecs h ids).1 = declChange h := by
        funext d
        cases d with
        | importDecl ids2 =>
          show (if _ then _ else _) = _
          have : (fun k => !(isTestifyPath (pathAt (filterSpecs h ids).1 k)))
              = (fun k => !(isTestifyPath (pathAt h k))) :=
            funext fun k => by rw [pathAt_filterSpecs]
          rw [this]
          rfl
        | otherDecl t => rfl
      rw [hpred]
      rfl
    | otherDecl t =>
      show (rewriteDecls h rest).2.2 = _
      rw [ih]
      simp [declChange]

theorem rewriteDecls_heap (ds : List FileDecl) (h : List ImportSpec) (j : Nat) :
    (rewriteDecls h ds).1.getD j defaultSpec =
      if j ∈ importIdsOfDecls ds ∧ isTestifyPath (pathAt h j) = false
      then applyAlias (h.getD j defaultSpec)
      else h.getD j defaultSpec := by
  induction ds generalizing h with
  | nil => simp [rewriteDecls, importIdsOfDecls]
  | cons d rest ih =>
    cases d with
    | importDecl ids =>
      show (rewriteDecls (filterSpecs h ids).1 rest).1.getD j defaultSpec = _
      rw [ih, pathAt_filterSpecs, filterSpecs_heap, importIdsOfDecls_cons_import]
      by_cases ht : isTestifyPath (pathAt h j) = false
      · by_cases hin : j ∈ ids <;> by_cases hrest : j ∈ importIdsOfDecls rest <;>
          simp [ht, hin, hrest, List.mem_append, applyAlias_idem]
      · simp [ht, List.mem_append]
    | otherDecl t =>
      show (rewriteDecls h rest).1.getD j defaultSpec = _
      rw [ih, importIdsOfDecls_cons_other]

/-! ### Corollaries about `rewriteImports` and the two representations -/

theorem rewriteImports_imports (f : AstFile) :
    (rewriteImports f).1.imports
      = f.imports.filter (fun i => !(isTestifyPath (pathAt f.specs i))) := rfl

theorem rewriteImports_specs (f : AstFile) :
    (rewriteImports f).1.specs = (rewriteDecls f.specs f.decls).1 := rfl

theorem rewriteImports_decls (f : AstFile) :
    (rewriteImports f).1.decls = (rewriteDecls f.specs f.decls).2.1 := rfl

theorem importIdsOfDecls_map_declFilter (h : List ImportSpec) (ds : List FileDecl) :
    importIdsOfDecls (ds.map (declFilter h))
      = (importIdsOfDecls ds).filter (fun i => !(isTestifyPath (pathAt h i))) := by
  induction ds with
  | nil => rfl
  | cons d rest ih =>
    cases d with
    | importDecl ids =>
      rw [List.map_cons]
      show importIdsOfDecls (.importDecl _ :: _) = _
      rw [importIdsOfDecls_cons_import, importIdsOfDecls_cons_import, ih, List.filter_append]
    | otherDecl t =>
      rw [List.map_cons]
      show importIdsOfDecls (.otherDecl t :: _) = _
      rw [importIdsOfDecls_cons_other, importIdsOfDecls_cons_other, ih]

theorem importIds_after (f : AstFile) :
    importIdsOfDecls (rewriteImports f).1.decls
      = (importIdsOfDecls f.decls).filter (fun i => !(isTestifyPath (pathAt f.specs i))) := by
  rw [rewriteImports_decls, rewriteDecls_decls, importIdsOfDecls_map_declFilter]

/-- Claim C2: after the import reconciliation pass, the import-list
representation (`file.Imports`) and the declaration-list import group describe
exactly the same sequence of surviving imports - same paths, same aliases
(the `ImportSpec` nodes are shared, so the alias rewrite done during the
declaration-list sweep is visible through both) - and neither contains a
testify require/assert import.  The hypothesis is the parser invariant that
`file.Imports` lists exactly the specs of the `IMPORT` declaration groups. -/
theorem c2_views_agree_after_rewrite (f : AstFile)
    (hpar : f.imports = importIdsOfDecls f.decls) :
    importListView (rewriteImports f).1 = declListView (rewriteImports f).1 ∧
    ∀ sp ∈ importListView (rewriteImports f).1,
      sContains sp.pathValue "/testify/require" = false ∧
      sContains sp.pathValue "/testify/assert" = false := by
  constructor
  · unfold importListView declListView
    have hids : (rewriteImports f).1.imports = importIdsOfDecls (rewriteImports f).1.decls := by
      rw [rewriteImports_imports, importIds_after, hpar]
    rw [hids]
  · intro sp hsp
    obtain ⟨i, hi, rfl⟩ := List.mem_map.mp hsp
    rw [rewriteImports_imports] at hi
    have hpred := (List.mem_filter.mp hi).2
    have hfalse : isTestifyPath (pathAt f.specs i) = false := by
      simpa using hpred
    have hpath : ((rewriteImports f).1.specs.getD i defaultSpec).pathValue
        = pathAt f.specs i := by
      rw [rewriteImports_specs]
      exact pathAt_rewriteDecls f.decls f.specs i
    unfold isTestifyPath at hfalse
    rw [Bool.or_eq_false_iff] at hfalse
    rw [hpath]
    exact ⟨hfalse.1, hfalse.2⟩

/-- Concrete file used to witness the parser-invariant hypothesis of the C2
theorem: one import group holding a normal import and a testify import. -/
def c2File : AstFile :=
  { specs := [{ name := none, pathValue := "\"fmt\"" },
      { name := none, pathValue := "\"github.com/stretchr/testify/require\"" }],
    imports := [0, 1],
    decls := [.importDecl [0, 1]] }

/-- Witness for the C2 theorem at `c2File`. -/
theorem c2_views_agree_after_rewrite_witness :
    (c2File.imports = importIdsOfDecls c2File.decls) ∧
    (importListView (rewriteImports c2File).1 = declListView (rewriteImports c2File).1 ∧
      ∀ sp ∈ importListView (rewriteImports c2File).1,
        sContains sp.pathValue "/testify/require" = false ∧
        sContains sp.pathValue "/testify/assert" = false) :=
  ⟨rfl, c2_views_agree_after_rewrite c2File rfl⟩

/-! ### The change count returned by `rewriteImports` (claim C3) -/

theorem rewriteImports_count (f : AstFile) :
    (rewriteImports f).2 =
      (if (f.imports.filter (fun i => !(isTestifyPath (pathAt f.specs i)))).length
          = f.imports.length then 0 else 1)
      + (f.decls.map (declChange f.specs)).sum := by
  show _ + (rewriteDecls f.specs f.decls).2.2 = _
  rw [rewriteDecls_count]

theorem declChangeSum_eq_zero_iff (ds : List FileDecl) (h : List ImportSpec) :
    (ds.map (declChange h)).sum = 0 ↔
      ∀ i ∈ importIdsOfDecls ds, isTestifyPath (pathAt h i) = false := by
  induction ds with
  | nil => simp [importIdsOfDecls]
  | cons d rest ih =>
    cases d with
    | importDecl ids =>
      rw [List.map_cons, List.sum_cons, importIdsOfDecls_cons_import, Nat.add_eq_zero]
      have hhead : declChange h (.importDecl ids) = 0 ↔
          ∀ i ∈ ids, isTestifyPath (pathAt h i) = false := by
        show (if (ids.filter (fun i => !(isTestifyPath (pathAt h i)))).length = ids.length
          then 0 else 1) = 0 ↔ _
        split
        · next hc =>
          simp only [true_iff]
          intro i hi
          have := List.filter_length_eq_length.mp hc i hi
          simpa using this
        · next hc =>
          simp only [Nat.one_ne_zero, false_iff]
          intro hall
          exact hc (List.filter_length_eq_length.mpr (fun i hi => by simp [hall i hi]))
      rw [hhead, ih]
      constructor
      · rintro ⟨h1, h2⟩ i hi
        rcases List.mem_append.mp hi with hl | hr
        · exact h1 i hl
        · exact h2 i hr
      · intro hall
        exact ⟨fun i hi => hall i (List.mem_append.mpr (Or.inl hi)),
          fun i hi => hall i (List.mem_append.mpr (Or.inr hi))⟩
    | otherDecl t =>
      rw [List.map_cons, List.sum_cons, importIdsOfDecls_cons_other]
      show declChange h (.otherDecl t) + _ = 0 ↔ _
      rw [show declChange h (.otherDecl t) = 0 from rfl, Nat.zero_add, ih]

theorem declChangeSum_le (ds : List FileDecl) (h : List ImportSpec) :
    (ds.map (declChange h)).sum ≤ numImportDecls ds := by
  induction ds with
  | nil => simp [numImportDecls]
  | cons d rest ih =>
    cases d with
    | importDecl ids =>
      rw [List.map_cons, List.sum_cons]
      have hnum : numImportDecls (FileDecl.importDecl ids :: rest) = numImportDecls rest + 1 := by
        show (List.filter _ (FileDecl.importDecl ids :: rest)).length = _
        rw [List.filter_cons]
        simp [numImportDecls]
      rw [hnum]
      have hle : declChange h (FileDecl.importDecl ids) ≤ 1 := by
        show (if (ids.filter (fun i => !(isTestifyPath (pathAt h i)))).length = ids.length
          then 0 else 1) ≤ 1
        split <;> omega
      omega
    | otherDecl t =>
      rw [List.map_cons, List.sum_cons]
      have hnum : numImportDecls (FileDecl.otherDecl t :: rest) = numImportDecls rest := by
        show (List.filter _ (FileDecl.otherDecl t :: rest)).length = _
        rw [List.filter_cons]
        simp [numImportDecls]
      rw [hnum, show declChange h (.otherDecl t) = 0 from rfl, Nat.zero_add]
      exact ih

/-- A file with a single testify import in a single import group; on it
`rewriteImports` removes the import from both representations and returns 2. -/
def c3File : AstFile :=
  { specs := [{ name := none, pathValue := "\"github.com/stretchr/testify/require\"" }],
    imports := [0],
    decls := [.importDecl [0]] }

/-- Counterexample to claim C3: the claim says the reconciler's return value
is 1 whenever anything changed and never greater than 1, but on a file with
one removed testify import it returns 2 (1 for the `file.Imports` compaction
plus 1 for the shrunken `IMPORT` `GenDecl` group). -/
theorem c3_counterexample_count_two : 1 < (rewriteImports c3File).2 := by decide

/-- Claim C3 as amended: the reconciler returns 0 if and only if no import
was removed from either representation (in particular alias-only changes are
not counted at all), and when imports are removed it returns 1 for the
compaction of the import list plus 1 per import declaration group that shrank, so
its return value is bounded by 1 plus the number of import groups - not by 1. -/
theorem c3_amended_change_count (f : AstFile) :
    ((rewriteImports f).2 = 0 ↔
      ((∀ i ∈ f.imports, isTestifyPath (pathAt f.specs i) = false) ∧
        ∀ i ∈ importIdsOfDecls f.decls, isTestifyPath (pathAt f.specs i) = false)) ∧
    (rewriteImports f).2 ≤ 1 + numImportDecls f.decls := by
  rw [rewriteImports_count]
  constructor
  · rw [Nat.add_eq_zero]
    have h1 : ((if (f.imports.filter (fun i => !(isTestifyPath (pathAt f.specs i)))).length
        = f.imports.length then 0 else 1) = 0) ↔
        ∀ i ∈ f.imports, isTestifyPath (pathAt f.specs i) = false := by
      split
      · next hc =>
        simp only [true_iff]
        intro i hi
        have := List.filter_length_eq_length.mp hc i hi
        simpa using this
      · next hc =>
        simp only [Nat.one_ne_zero, false_iff]
        intro hall
        exact hc (List.filter_length_eq_length.mpr (fun i hi => by simp [hall i hi]))
    rw [h1, declChangeSum_eq_zero_iff]
  · have := declChangeSum_le f.decls f.specs
    split <;> omega

/-- Witness for the amended C3 theorem, instantiated at the concrete file
`c3File`. -/
theorem c3_amended_change_count_witness :
    ((rewriteImports c3File).2 = 0 ↔
      ((∀ i ∈ c3File.imports, isTestifyPath (pathAt c3File.specs i) = false) ∧
        ∀ i ∈ importIdsOfDecls c3File.decls,
          isTestifyPath (pathAt c3File.specs i) = false)) ∧
    (rewriteImports c3File).2 ≤ 1 + numImportDecls c3File.decls :=
  c3_amended_change_count c3File

/-! ### Idempotence and order preservation of `rewriteImports` (claim C4) -/

theorem heap_ext_getD (h1 h2 : List ImportSpec) (hlen : h1.length = h2.length)
    (hget : ∀ j, h1.getD j defaultSpec = h2.getD j defaultSpec) : h1 = h2 := by
  apply List.ext_getElem hlen
  intro i hi1 hi2
  have hd := hget i
  rw [List.getD_eq_getElem?_getD, List.getD_eq_getElem?_getD,
    List.getElem?_eq_getElem hi1, List.getElem?_eq_getElem hi2] at hd
  simpa using hd

/-- Order relation between a post-pass declaration and its pre-pass original:
the import groups keep a subsequence of their specs, other declarations are
kept verbatim. -/
def declShrunkFrom : FileDecl → FileDecl → Prop
  | .importDecl a, .importDecl b => List.Sublist a b
  | .otherDecl s, .otherDecl t => s = t
  | _, _ => False

/-- Claim C4: import cleanup is idempotent and order-preserving.  Applying
`rewriteImports` to an already-reconciled file changes nothing and reports 0,
a single application keeps the surviving `file.Imports` entries in their
original relative order (a sublist), and every declaration keeps a sublist of
its original import specs. -/
theorem c4_idempotent_and_order_preserving (f : AstFile) :
    rewriteImports (rewriteImports f).1 = ((rewriteImports f).1, 0) ∧
    List.Sublist (rewriteImports f).1.imports f.imports ∧
    List.Forall₂ declShrunkFrom (rewriteImports f).1.decls f.decls := by
  refine ⟨?_, ?_, ?_⟩
  · set f' := (rewriteImports f).1 with hf'
    have hpath : ∀ j, pathAt f'.specs j = pathAt f.specs j := by
      intro j
      rw [hf', rewriteImports_specs]
      exact pathAt_rewriteDecls f.decls f.specs j
    have hfn : (fun i => !(isTestifyPath (pathAt f'.specs i)))
        = (fun i => !(isTestifyPath (pathAt f.specs i))) :=
      funext fun i => by rw [hpath]
    have himpmem : ∀ i ∈ f'.imports, (!(isTestifyPath (pathAt f.specs i))) = true := by
      intro i hi
      rw [hf', rewriteImports_imports] at hi
      exact (List.mem_filter.mp hi).2
    have himp : f'.imports.filter (fun i => !(isTestifyPath (pathAt f'.specs i)))
        = f'.imports := by
      rw [hfn]
      exact List.filter_eq_self.mpr himpmem
    have hidsmem : ∀ i ∈ importIdsOfDecls f'.decls,
        (!(isTestifyPath (pathAt f.specs i))) = true := by
      intro i hi
      rw [hf', importIds_after] at hi
      exact (List.mem_filter.mp hi).2
    have hdeclfn : declFilter f'.specs = declFilter f.specs := by
      funext d
      cases d with
      | importDecl ids =>
        show FileDecl.importDecl _ = FileDecl.importDecl _
        rw [hfn]
      | otherDecl t => rfl
    have hdecl : (rewriteDecls f'.specs f'.decls).2.1 = f'.decls := by
      rw [rewriteDecls_decls, hdeclfn, hf', rewriteImports_decls, rewriteDecls_decls,
        List.map_map]
      apply List.map_congr_left
      intro d _
      show declFilter f.specs (declFilter f.specs d) = declFilter f.specs d
      cases d with
      | importDecl ids =>
        show FileDecl.importDecl _ = FileDecl.importDecl _
        congr 1
        apply List.filter_eq_self.mpr
        intro i hi
        exact (List.mem_filter.mp hi).2
      | otherDecl t => rfl
    have hspecs : (rewriteDecls f'.specs f'.decls).1 = f'.specs := by
      apply heap_ext_getD
      · rw [rewriteDecls_heap_length]
      · intro j
        rw [rewriteDecls_heap]
        split
        · next hc =>
          obtain ⟨hmem, _⟩ := hc
          rw [hf', importIds_after] at hmem
          have hj : j ∈ importIdsOfDecls f.decls ∧
              (!(isTestifyPath (pathAt f.specs j))) = true := by
            have := List.mem_filter.mp hmem
            exact ⟨this.1, this.2⟩
          have hjt : isTestifyPath (pathAt f.specs j) = false := by
            simpa using hj.2
          have hgd : f'.specs.getD j defaultSpec
              = applyAlias (f.specs.getD j defaultSpec) := by
            rw [hf', rewriteImports_specs, rewriteDecls_heap, if_pos ⟨hj.1, hjt⟩]
          rw [hgd, applyAlias_idem]
        · rfl
    have hcnt : (rewriteDecls f'.specs f'.decls).2.2 = 0 := by
      rw [rewriteDecls_count]
      apply (declChangeSum_eq_zero_iff f'.decls f'.specs).mpr
      intro i hi
      rw [hpath]
      simpa using hidsmem i hi
    have hre : rewriteImports f' =
        (AstFile.mk (rewriteDecls f'.specs f'.decls).1
            (f'.imports.filter (fun i => !(isTestifyPath (pathAt f'.specs i))))
            (rewriteDecls f'.specs f'.decls).2.1,
          (if (f'.imports.filter (fun i => !(isTestifyPath (pathAt f'.specs i)))).length
              = f'.imports.length then 0 else 1) + (rewriteDecls f'.specs f'.decls).2.2) := rfl
    rw [hre, himp, hspecs, hdecl, hcnt, if_pos rfl]
  · rw [rewriteImports_imports]
    exact List.filter_sublist f.imports
  · rw [rewriteImports_decls, rewriteDecls_decls]
    induction f.decls with
    | nil => exact List.Forall₂.nil
    | cons d rest ih =>
      rw [List.map_cons]
      refine List.Forall₂.cons ?_ ih
      cases d with
      | importDecl ids =>
        show List.Sublist (ids.filter _) ids
        exact List.filter_sublist ids
      | otherDecl t => rfl

/-! ### Substring-driven removal and aliasing (claim C10) -/

/-- A file whose single import path contains both the
`github.com/grailbio/testutil/expect` and the
`github.com/grailbio/testutil/assert` substring. -/
def c10File : AstFile :=
  { specs :=
      [{ name := none
         pathValue :=
           "\"github.com/grailbio/testutil/expect/v/github.com/grailbio/testutil/assert\"" }],
    imports := [0],
    decls := [.importDecl [0]] }

/-- Counterexample to claim C10 as stated: the claim says the reconciler sets
the alias of every import whose path contains
`github.com/grailbio/testutil/expect` to `gexpect`, but on a path that also
contains `github.com/grailbio/testutil/assert` the later `assert` check wins
and the final alias is `gassert`, not `gexpect`. -/
theorem c10_counterexample_expect_overwritten :
    sContains (pathAt c10File.specs 0) "github.com/grailbio/testutil/expect" = true ∧
    ((rewriteImports c10File).1.specs.getD 0 defaultSpec).name = some "gassert" ∧
    ((rewriteImports c10File).1.specs.getD 0 defaultSpec).name ≠ some "gexpect" := by
  refine ⟨by decide, by decide, by decide⟩

/-- Claim C10 as amended: removal and aliasing are decided purely by substring
matches on the quoted path.  `rewriteImports` removes from both
representations exactly the imports whose path contains `/testify/require` or
`/testify/assert`; every surviving declaration-list import is rewritten by
`applyAlias`, which sets the alias to `gassert` whenever the path contains
`github.com/grailbio/testutil/assert`, to `gexpect` whenever the path contains
`github.com/grailbio/testutil/expect` but not the `assert` substring (the two
checks run in order, so the `assert` check overwrites the `expect` one), and
leaves path and alias of every other import unchanged. -/
theorem c10_amended_substring_rules (f : AstFile) :
    declListView (rewriteImports f).1
      = ((declListView f).filter (fun sp => !(isTestifyPath sp.pathValue))).map applyAlias ∧
    (rewriteImports f).1.imports
      = f.imports.filter (fun i => !(isTestifyPath (pathAt f.specs i))) ∧
    (∀ sp : ImportSpec, (applyAlias sp).pathValue = sp.pathValue) ∧
    (∀ sp : ImportSpec, sContains sp.pathValue "github.com/grailbio/testutil/assert" = true →
      (applyAlias sp).name = some "gassert") ∧
    (∀ sp : ImportSpec, sContains sp.pathValue "github.com/grailbio/testutil/assert" = false →
      sContains sp.pathValue "github.com/grailbio/testutil/expect" = true →
      (applyAlias sp).name = some "gexpect") ∧
    (∀ sp : ImportSpec, sContains sp.pathValue "github.com/grailbio/testutil/assert" = false →
      sContains sp.pathValue "github.com/grailbio/testutil/expect" = false →
      applyAlias sp = sp) := by
  refine ⟨?_, rewriteImports_imports f, applyAlias_pathValue, ?_, ?_, ?_⟩
  · unfold declListView
    rw [importIds_after]
    have hstep : ((importIdsOfDecls f.decls).filter
          (fun i => !(isTestifyPath (pathAt f.specs i)))).map
        (fun i => (rewriteImports f).1.specs.getD i defaultSpec)
        = ((importIdsOfDecls f.decls).filter
          (fun i => !(isTestifyPath (pathAt f.specs i)))).map
        (fun i => applyAlias (f.specs.getD i defaultSpec)) := by
      apply List.map_congr_left
      intro i hi
      have hmem := List.mem_filter.mp hi
      have ht : isTestifyPath (pathAt f.specs i) = false := by
        simpa using hmem.2
      rw [rewriteImports_specs, rewriteDecls_heap, if_pos ⟨hmem.1, ht⟩]
    rw [hstep]
    have hfun : (fun i => applyAlias (f.specs.getD i defaultSpec))
        = applyAlias ∘ (fun i => f.specs.getD i defaultSpec) := rfl
    rw [hfun, ← List.map_map]
    congr 1
    rw [List.filter_map]
    rfl
  · intro sp hassert
    rw [applyAlias_eq, if_pos hassert]
  · intro sp hassert hexpect
    rw [applyAlias_eq, if_neg (by simp [hassert]), if_pos hexpect]
  · intro sp hassert hexpect
    rw [applyAlias_eq, if_neg (by simp [hassert]), if_neg (by simp [hexpect])]

/-- Witness for the amended C10 theorem: a plain `expect` import receives the
`gexpect` alias. -/
theorem c10_amended_substring_rules_witness :
    (sContains "\"github.com/grailbio/testutil/expect\"" "github.com/grailbio/testutil/assert"
        = false ∧
      sContains "\"github.com/grailbio/testutil/expect\"" "github.com/grailbio/testutil/expect"
        = true) ∧
    (applyAlias { name := none, pathValue := "\"github.com/grailbio/testutil/expect\"" }).name
      = some "gexpect" :=
  ⟨⟨by decide, by decide⟩,
    (c10_amended_substring_rules c10File).2.2.2.2.1
      { name := none, pathValue := "\"github.com/grailbio/testutil/expect\"" }
      (by decide) (by decide)⟩

/-! ## Orchestrator: package selection (claims C5 and C6)

`doMain` loads the program through the external `golang.org/x/tools/go/loader`
library and then chooses which packages to rewrite.  Packages are identified
here by their `pkg.String()` name. -/

/-- The loaded program image, as the orchestrator sees it: the synthetic
template packages registered with `CreateFromFilenames`, the packages named on
the command line, the direct-import relation of the package graph, and the
loader's `AllPackages` set. -/
structure IProg where
  created : List String
  requested : List String
  importsOf : String → List String
  allPackages : List String

/-- `InitialPackages()` of the loader: created packages plus the
packages imported from the command-line arguments. -/
def IProg.initialPackages (p : IProg) : List String := p.created ++ p.requested

/-- Reachability along direct imports starting from a root set: `q` is in the
loaded program exactly when some root reaches it by following imports. -/
inductive Reaches (g : String → List String) (roots : List String) : String → Prop
  | root (q : String) : q ∈ roots → Reaches g roots q
  | step (q r : String) : Reaches g roots q → r ∈ g q → Reaches g roots r

/-- The documented behavior of the external loader: `AllPackages` holds
exactly the packages of the loaded program, i.e. the initial packages
(created template units and requested packages) together with everything they
transitively import.  A package that merely imports a requested package - a
dependent - is not loaded. -/
def IProg.loadInvariant (p : IProg) : Prop :=
  ∀ q, q ∈ p.allPackages ↔ Reaches p.importsOf p.initialPackages q

/-- The package list `doMain` iterates over: `AllPackages` when the
`-transitive` flag is set, `InitialPackages()` otherwise. -/
def selectedPkgs (transitive : Bool) (p : IProg) : List String :=
  if transitive then p.allPackages else p.initialPackages

/-- The packages actually rewritten: `doMain` skips a package when it is one
of the created template packages (`pkg == t` over the `templates` slice) or
when `strings.Index(pkg.String(), "template0") >= 0`. -/
def processedPkgs (transitive : Bool) (p : IProg) : List String :=
  (selectedPkgs transitive p).filter
    (fun pkg => !(decide (pkg ∈ p.created)) && !(sContains pkg "template0"))

/-- A program with one requested package `P` and a package `Q` that imports
`P` but is not requested: the loader never loads `Q`. -/
def c5Prog : IProg :=
  { created := [],
    requested := ["P"],
    importsOf := fun q => if q = "Q" then ["P"] else [],
    allPackages := ["P"] }

theorem c5Prog_loadInvariant : c5Prog.loadInvariant := by
  intro q
  constructor
  · intro hq
    have hq' : q = "P" := by
      simpa [c5Prog] using hq
    subst hq'
    exact Reaches.root _ (by simp [c5Prog, IProg.initialPackages])
  · intro hr
    have hP : ∀ x, Reaches c5Prog.importsOf c5Prog.initialPackages x → x = "P" := by
      intro x hx
      induction hx with
      | root y hy => simpa [c5Prog, IProg.initialPackages] using hy
      | step y r hy hr ih =>
        subst ih
        have : c5Prog.importsOf "P" = [] := by
          simp [c5Prog]
        rw [this] at hr
        exact absurd hr (List.not_mem_nil r)
    rw [hP q hr]
    simp [c5Prog]

/-- Counterexample to claim C5: the claim says that in transitive mode every
package `Q` that imports a requested package `P` is included in the rewritten
set, but the loader only loads the requested packages and their
*dependencies*, so the dependent `Q` is absent even with the flag set. -/
theorem c5_counterexample_dependent_not_included :
    c5Prog.loadInvariant ∧
    "P" ∈ c5Prog.requested ∧
    "P" ∈ c5Prog.importsOf "Q" ∧
    "Q" ∉ processedPkgs true c5Prog :=
  ⟨c5Prog_loadInvariant, by decide, by decide, by decide⟩

/-- Claim C5 as amended: with the `-transitive` flag the processed set is the
loaded program - the initial packages (requested plus created templates) and
the packages they transitively *import* (dependencies), minus the skipped
template-named packages; packages that merely import a requested package are
not included.  Without the flag only the initial packages (minus skipped
ones) are processed. -/
theorem c5_amended_transitive_is_dependencies (p : IProg) (hw : p.loadInvariant)
    (q : String) :
    (q ∈ processedPkgs true p ↔
      (Reaches p.importsOf p.initialPackages q ∧ q ∉ p.created ∧
        sContains q "template0" = false)) ∧
    (q ∈ processedPkgs false p ↔
      (q ∈ p.initialPackages ∧ q ∉ p.created ∧ sContains q "template0" = false)) := by
  constructor
  · unfold processedPkgs selectedPkgs
    rw [if_pos rfl, List.mem_filter]
    constructor
    · rintro ⟨hmem, hpred⟩
      rw [Bool.and_eq_true, Bool.not_eq_true', Bool.not_eq_true'] at hpred
      refine ⟨(hw q).mp hmem, ?_, hpred.2⟩
      intro hc
      rw [decide_eq_false_iff_not] at hpred
      · exact hpred.1 hc
    · rintro ⟨hreach, hnc, hns⟩
      refine ⟨(hw q).mpr hreach, ?_⟩
      rw [Bool.and_eq_true, Bool.not_eq_true', Bool.not_eq_true']
      exact ⟨decide_eq_false hnc, hns⟩
  · unfold processedPkgs selectedPkgs
    rw [if_neg (by simp), List.mem_filter]
    constructor
    · rintro ⟨hmem, hpred⟩
      rw [Bool.and_eq_true, Bool.not_eq_true', Bool.not_eq_true'] at hpred
      refine ⟨hmem, ?_, hpred.2⟩
      intro hc
      rw [decide_eq_false_iff_not] at hpred
      · exact hpred.1 hc
    · rintro ⟨hmem, hnc, hns⟩
      refine ⟨hmem, ?_⟩
      rw [Bool.and_eq_true, Bool.not_eq_true', Bool.not_eq_true']
      exact ⟨decide_eq_false hnc, hns⟩

/-- Witness for the amended C5 theorem at the concrete program `c5Prog`. -/
theorem c5_amended_transitive_is_dependencies_witness :
    c5Prog.loadInvariant ∧
    (("Q" ∈ processedPkgs true c5Prog ↔
        (Reaches c5Prog.importsOf c5Prog.initialPackages "Q" ∧ "Q" ∉ c5Prog.created ∧
          sContains "Q" "template0" = false)) ∧
      ("Q" ∈ processedPkgs false c5Prog ↔
        ("Q" ∈ c5Prog.initialPackages ∧ "Q" ∉ c5Prog.created ∧
          sContains "Q" "template0" = false))) :=
  ⟨c5Prog_loadInvariant,
    c5_amended_transitive_is_dependencies c5Prog c5Prog_loadInvariant "Q"⟩

/-- A requested, non-template package whose name happens to contain the
substring `template0`. -/
def c6Prog : IProg :=
  { created := [],
    requested := ["mytemplate0007"],
    importsOf := fun _ => [],
    allPackages := ["mytemplate0007"] }

/-- Counterexample to claim C6: the claim says every package that is not a
generated TemplateUnit is processed, whatever its name; but the loose
substring check `strings.Index(pkg.String(), "template0") >= 0` also skips the
legitimate requested package `mytemplate0007`, which is not a template unit. -/
theorem c6_counterexample_substring_skip :
    "mytemplate0007" ∉ c6Prog.created ∧
    "mytemplate0007" ∈ selectedPkgs false c6Prog ∧
    "mytemplate0007" ∉ processedPkgs false c6Prog := by
  refine ⟨by decide, by decide, by decide⟩

/-- Claim C6 as amended: a selected package is skipped iff it is one of the
created template packages or its name contains the substring `template0`;
in particular every created template package is excluded, but the converse of
the claim fails - a non-template package whose name contains `template0` is
skipped as well. -/
theorem c6_amended_skip_rule (transitive : Bool) (p : IProg) (q : String) :
    (q ∈ processedPkgs transitive p ↔
      (q ∈ selectedPkgs transitive p ∧
        ¬(q ∈ p.created ∨ sContains q "template0" = true))) ∧
    (∀ c ∈ p.created, c ∉ processedPkgs transitive p) := by
  constructor
  · unfold processedPkgs
    rw [List.mem_filter]
    constructor
    · rintro ⟨hmem, hpred⟩
      rw [Bool.and_eq_true, Bool.not_eq_true', Bool.not_eq_true'] at hpred
      refine ⟨hmem, ?_⟩
      rintro (hc | hs)
      · rw [decide_eq_false_iff_not] at hpred
        · exact hpred.1 hc
      · rw [hpred.2] at hs
        exact Bool.false_ne_true hs
    · rintro ⟨hmem, hno⟩
      refine ⟨hmem, ?_⟩
      rw [Bool.and_eq_true, Bool.not_eq_true', Bool.not_eq_true']
      constructor
      · exact decide_eq_false (fun hc => hno (Or.inl hc))
      · rcases Bool.eq_false_or_eq_true (sContains q "template0") with h | h
        · exact absurd (Or.inr h) hno
        · exact h
  · intro c hc hmem
    unfold processedPkgs at hmem
    rw [List.mem_filter] at hmem
    have hpred := hmem.2
    rw [Bool.and_eq_true, Bool.not_eq_true'] at hpred
    rw [decide_eq_false_iff_not] at hpred
    exact hpred.1 hc

/-- A run whose only created template unit is `template00000001`. -/
def c6ProgB : IProg :=
  { created := ["template00000001"],
    requested := [],
    importsOf := fun _ => [],
    allPackages := ["template00000001"] }

/-- Witness for the amended C6 theorem: the created template unit of
`c6ProgB` is excluded from processing. -/
theorem c6_amended_skip_rule_witness :
    ("template00000001" ∈ c6ProgB.created) ∧
    "template00000001" ∉ processedPkgs false c6ProgB :=
  ⟨by decide,
    (c6_amended_skip_rule false c6ProgB "p").2 "template00000001" (by decide)⟩

/-! ## Orchestrator: per-file processing and fatal errors (claims C7 and C8) -/

/-- Run every matcher (`xform.Transform`) in sequence over a file, threading
the mutated file and summing the per-matcher replacement counts.  The matchers
come from the external rewrite engine and are abstract here. -/
def runMatchers (xforms : List (AstFile → AstFile × Nat)) (f : AstFile) : AstFile × Nat :=
  xforms.foldl (fun acc x => ((x acc.1).1, acc.2 + (x acc.1).2)) (f, 0)

/-- The total per-file change count: matcher replacements plus the import
reconciler's return value, with the file mutated by both. -/
def fileChanges (xforms : List (AstFile → AstFile × Nat)) (f : AstFile) : AstFile × Nat :=
  ((rewriteImports (runMatchers xforms f).1).1,
    (runMatchers xforms f).2 + (rewriteImports (runMatchers xforms f).1).2)

/-- The body of the per-file loop of `main`: if the summed count is 0 the file
is skipped (`continue`), otherwise it is handed to `eg.WriteAST`; a write
failure is a panic (`.error`).  `.ok none` = skipped, `.ok (some g)` = file
`g` persisted. -/
def processFile (xforms : List (AstFile → AstFile × Nat)) (wf : AstFile → Option String)
    (f : AstFile) : Except String (Option AstFile) :=
  if (fileChanges xforms f).2 = 0 then .ok none
  else match wf (fileChanges xforms f).1 with
    | some e => .error e
    | none => .ok (some (fileChanges xforms f).1)

/-- The per-package file loop: processes files in order and aborts on the
first panic, returning the files persisted before the abort in the error. -/
def processFiles (xforms : List (AstFile → AstFile × Nat)) (wf : AstFile → Option String) :
    List AstFile → Except (String × List AstFile) (List AstFile)
  | [] => .ok []
  | f :: rest =>
    match processFile xforms wf f with
    | .error e => .error (e, [])
    | .ok r =>
      match processFiles xforms wf rest with
      | .error (e, ws) => .error (e, r.toList ++ ws)
      | .ok ws => .ok (r.toList ++ ws)

/-- The load-then-rewrite tail of `main`: a failed `conf.Load()` panics before
any file is touched. -/
def loadThenProcess (loadRes : Except String (List AstFile))
    (xforms : List (AstFile → AstFile × Nat)) (wf : AstFile → Option String) :
    Except (String × List AstFile) (List AstFile) :=
  match loadRes with
  | .error e => .error (e, [])
  | .ok files => processFiles xforms wf files

/-- Claim C7: a file is handed to `WriteAST` iff the summed change count
(matcher replacements plus import reconciliation) is non-zero.  With a zero
count the outcome is `.ok none` for every writer - the writer is never
invoked - and the file is left untouched; with a non-zero count and a
successful writer the mutated file is persisted. -/
theorem c7_persist_iff_changed (xforms : List (AstFile → AstFile × Nat)) (f : AstFile) :
    (∀ wf, (fileChanges xforms f).2 = 0 → processFile xforms wf f = .ok none) ∧
    (∀ wf, processFile xforms wf f = .ok none → (fileChanges xforms f).2 = 0) ∧
    ((fileChanges xforms f).2 ≠ 0 →
      processFile xforms (fun _ => none) f = .ok (some (fileChanges xforms f).1)) := by
  refine ⟨?_, ?_, ?_⟩
  · intro wf h0
    unfold processFile
    rw [if_pos h0]
  · intro wf hok
    by_contra hne
    unfold processFile at hok
    rw [if_neg hne] at hok
    cases hwf : wf (fileChanges xforms f).1 with
    | some e => rw [hwf] at hok; exact Except.noConfusion hok
    | none =>
      rw [hwf] at hok
      have := Except.ok.inj hok
      exact Option.noConfusion this
  · intro hne
    unfold processFile
    rw [if_neg hne]

/-- A file with one testify import (non-zero change count), used to witness
the hypotheses of the C7 theorem. -/
def c7File : AstFile :=
  { specs := [{ name := none, pathValue := "\"github.com/stretchr/testify/assert\"" }],
    imports := [0],
    decls := [.importDecl [0]] }

/-- Witness for the C7 theorem: at `c7File` with no matchers the change count
is non-zero and the file is persisted. -/
theorem c7_persist_iff_changed_witness :
    (fileChanges [] c7File).2 ≠ 0 ∧
    processFile [] (fun _ => none) c7File = .ok (some (fileChanges [] c7File).1) :=
  ⟨by decide, (c7_persist_iff_changed [] c7File).2.2 (by decide)⟩

/-- Claim C8: every fatal error aborts the whole run instead of continuing.
If writing a synthetic template unit fails, `addTemplates` panics at once and
registers nothing further; if the combined template-plus-target load fails,
the pipeline aborts with no file processed; and if writing a mutated file
fails, the file loop aborts with no later file processed. -/
theorem c8_fatal_errors_abort (e : String) (rType : RewriteType)
    (subs : List Substitution) (seq : Nat) (hs : subs ≠ [])
    (xforms : List (AstFile → AstFile × Nat)) (wf : AstFile → Option String)
    (f : AstFile) (rest : List AstFile)
    (hfail : processFile xforms wf f = .error e) :
    addTemplates (fun _ _ => some e) rType subs seq = .error (e, []) ∧
    (∀ xs wf2, loadThenProcess (.error e) xs wf2 = .error (e, [])) ∧
    processFiles xforms wf (f :: rest) = .error (e, []) := by
  refine ⟨?_, fun xs wf2 => rfl, ?_⟩
  · match subs with
    | [] => exact absurd rfl hs
    | sub :: tail => rfl
  · rw [processFiles, hfail]

/-- Witness for the C8 theorem: a concrete failing writer on a file with a
testify import aborts the run. -/
theorem c8_fatal_errors_abort_witness :
    (substitutions ≠ [] ∧
      processFile [] (fun _ => some "disk full") c7File = .error "disk full") ∧
    (addTemplates (fun _ _ => some "disk full") .rewriteRequire substitutions 0
        = .error ("disk full", []) ∧
      (∀ xs wf2, loadThenProcess (.error "disk full") xs wf2 = .error ("disk full", [])) ∧
      processFiles [] (fun _ => some "disk full") [c7File] = .error ("disk full", [])) :=
  ⟨⟨by decide, rfl⟩,
    c8_fatal_errors_abort "disk full" .rewriteRequire substitutions 0 (by decide)
      [] (fun _ => some "disk full") c7File [] rfl⟩

/-! ## Flag handling in `main` (claim C9) -/

/-- The local `usage` constant: the untestify banner plus `loader.FromArgsUsage`
(an external library constant, passed in as a parameter). -/
def usageText (fromArgsUsage : String) : String :=
  "untestify: convert stretcher/testify to grailbio.com/testutil.\n\nUsage: untestify [flags] packages...\n\n-help            show detailed help message\n-v               show verbose matcher diagnostics\n" ++ fromArgsUsage

/-- What `main` does before reaching `doMain`: the text written to stderr and,
when it exits early, the exit code. -/
inductive MainStep where
  | exitWith (stderr : List String) (exitCode : Nat)
  | run (args : List String)
deriving DecidableEq

/-- The prologue of `main`: `-help` prints `eg.Help` (the engine's help text,
an external constant passed in) and exits with code 2; otherwise zero
arguments print the local usage block and exit with code 1; otherwise the
pipeline runs on the arguments. -/
def mainEntry (egHelp fromArgsUsage : String) (helpFlag : Bool)
    (args : List String) : MainStep :=
  if helpFlag then .exitWith [egHelp] 2
  else if args.length = 0 then .exitWith [usageText fromArgsUsage] 1
  else .run args

/-- Counterexample to claim C9: the claim says the help flag prints both the
engine's usage text and the local usage block; but with `-help` set `main`
writes only `eg.Help` to stderr and exits - the local usage block is absent
from the output. -/
theorem c9_counterexample_usage_not_printed :
    mainEntry "ENGINEHELP" "" true ["pkg"] = .exitWith ["ENGINEHELP"] 2 ∧
    usageText "" ∉ ["ENGINEHELP"] := by
  refine ⟨rfl, by decide⟩

/-- Claim C9 as amended: when the help flag is given the program prints only
the underlying rewrite engine's help text and exits (with code 2); the local
usage block is printed only when the flag is absent and no package argument
is given (exit code 1); with arguments and no help flag the pipeline runs. -/
theorem c9_amended_help_prints_engine_text_only (egHelp fromArgsUsage : String)
    (helpFlag : Bool) (args : List String) :
    (helpFlag = true →
      mainEntry egHelp fromArgsUsage helpFlag args = .exitWith [egHelp] 2) ∧
    (helpFlag = false → args = [] →
      mainEntry egHelp fromArgsUsage helpFlag args
        = .exitWith [usageText fromArgsUsage] 1) ∧
    (helpFlag = false → args ≠ [] →
      mainEntry egHelp fromArgsUsage helpFlag args = .run args) := by
  refine ⟨?_, ?_, ?_⟩
  · intro h
    subst h
    rfl
  · intro h harg
    subst h
    subst harg
    rfl
  · intro h harg
    subst h
    unfold mainEntry
    rw [if_neg Bool.false_ne_true, if_neg (by simpa [List.length_eq_zero] using harg)]

/-- Witness for the amended C9 theorem at concrete inputs. -/
theorem c9_amended_help_prints_engine_text_only_witness :
    (true = true) ∧
    mainEntry "ENGINEHELP" "FROMARGS" true ["pkg"] = .exitWith ["ENGINEHELP"] 2 :=
  ⟨rfl, (c9_amended_help_prints_engine_text_only "ENGINEHELP" "FROMARGS" true ["pkg"]).1 rfl⟩

end Untestify
